import Mathlib

/-!
Shallow embedding of the PBT prompt-evaluation engine
(`src/pbt/core/evaluator.py`, `src/pbt/core/prompt_evaluator.py`,
`src/pbt/runtime.py`) and proofs about it.

Python strings are modelled as `List Char`, Python floats as `ℚ`
(the arithmetic in the claims involves only exact sums, divisions and
comparisons), Python ints as `ℤ`/`ℕ`, and fallible operations
(LLM-provider calls and judge sub-calls) as `Except`-valued parameters.
-/

namespace PBT

/-- Strings of the Python source are modelled as lists of characters. -/
abbrev Str := List Char

/-- Embedding of Python `s.lower()` (per-character lowercasing). -/
def toLowerStr (s : Str) : Str := s.map Char.toLower

/-- Embedding of the Python substring test `needle in hay`. -/
def containsSub (needle : Str) : Str → Bool
  | [] => needle.isEmpty
  | c :: rest => needle.isPrefixOf (c :: rest) || containsSub needle rest

/-- Everything after the first occurrence of `needle` (used only when
`needle` does occur, mirroring guarded `s.split(needle)[1]` uses). -/
def afterFirst (needle : Str) : Str → Str
  | [] => []
  | c :: rest =>
    if needle.isPrefixOf (c :: rest) then (c :: rest).drop needle.length
    else afterFirst needle rest

/-- Everything strictly before the first occurrence of `needle`
(the whole string when `needle` does not occur).  Composed with
`afterFirst` this models the second component of Python `s.split(needle)`. -/
def takeUntil (needle : Str) : Str → Str
  | [] => []
  | c :: rest =>
    if needle.isPrefixOf (c :: rest) then []
    else c :: takeUntil needle rest

/-- Embedding of Python `s.strip()`. -/
def pyStrip (s : Str) : Str :=
  ((s.dropWhile Char.isWhitespace).reverse.dropWhile Char.isWhitespace).reverse

/-- Embedding of Python `s.split(chr(10))` (splitting into lines). -/
def splitNl : Str → List Str
  | [] => [[]]
  | c :: rest =>
    let r := splitNl rest
    if c = Char.ofNat 10 then [] :: r
    else
      match r with
      | [] => [[c]]
      | h :: t => (c :: h) :: t

/-- Embedding of Python `hay.replace(needle, repl)`: every non-overlapping
occurrence of `needle`, scanned left to right, is replaced by `repl`.
An empty needle leaves the string unchanged (the source never replaces an
empty placeholder). -/
def replaceAll (needle repl : Str) (hay : Str) : Str :=
  match needle, hay with
  | [], l => l
  | _ :: _, [] => []
  | n :: ns, c :: rest =>
    if (n :: ns).isPrefixOf (c :: rest) then
      repl ++ replaceAll (n :: ns) repl (rest.drop ns.length)
    else
      c :: replaceAll (n :: ns) repl rest
termination_by hay.length
decreasing_by
  · simp only [List.length_cons, List.length_drop]
    omega
  · simp only [List.length_cons]
    omega

/-- The exact delimited placeholder the renderers substitute:
`"\x7b\x7b " ++ key ++ " \x7d\x7d"` (single spaces inside the braces),
as built by the f-strings in `_render_prompt`, `PromptRunner.run` and
`run_tests`. -/
def placeholderOf (key : Str) : Str :=
  [Char.ofNat 123, Char.ofNat 123, ' '] ++ key ++ [' ', Char.ofNat 125, Char.ofNat 125]

/-- Embedding of the renderer loop of `_render_prompt`
(`src/pbt/core/prompt_evaluator.py` lines 168-179), identical to the loops
in `PromptRunner.run` (`src/pbt/runtime.py` lines 41-43) and in
`run_tests` (`src/pbt/core/evaluator.py` lines 121-124): for each
`(key, value)` pair in order, replace every occurrence of the exact
placeholder of `key` with `value`. -/
def render_prompt (template : Str) (vars : List (Str × Str)) : Str :=
  vars.foldl (fun acc kv => replaceAll (placeholderOf kv.1) kv.2 acc) template

/-- Digits-to-number accumulator used by `parsePyInt`. -/
def digitsToNat (ds : Str) : Nat :=
  ds.foldl (fun n c => 10 * n + (c.toNat - 48)) 0

/-- Embedding of Python `int(s)` on the strings the judge parser feeds it:
surrounding whitespace is tolerated, an optional sign is allowed, and any
other non-digit character (e.g. a decimal point) makes the call raise,
which the source catches; the failure is modelled by `none`. -/
def parsePyInt (s : Str) : Option Int :=
  let t := pyStrip s
  match t with
  | '-' :: ds =>
    if ds ≠ [] ∧ ds.all Char.isDigit then some (-(digitsToNat ds : Int)) else none
  | '+' :: ds =>
    if ds ≠ [] ∧ ds.all Char.isDigit then some (digitsToNat ds : Int) else none
  | ds =>
    if ds ≠ [] ∧ ds.all Char.isDigit then some (digitsToNat ds : Int) else none

/-- The literal `Score:` marker searched for by `_judge_output`. -/
def scoreTag : Str := ['S', 'c', 'o', 'r', 'e', ':']

/-- The literal `Passed:` marker searched for by `_judge_output`. -/
def passedTag : Str := ['P', 'a', 's', 's', 'e', 'd', ':']

/-- The literal `Explanation:` marker searched for by `_judge_output`. -/
def explTag : Str := ['E', 'x', 'p', 'l', 'a', 'n', 'a', 't', 'i', 'o', 'n', ':']

/-- The literal `true` searched for in a lowercased `Passed:` line. -/
def trueLit : Str := ['t', 'r', 'u', 'e']

/-- The literal `Error during evaluation: ` message built by the
`except` branch of `_judge_output`. -/
def judgeErrTag : Str :=
  ['E', 'r', 'r', 'o', 'r', ' ', 'd', 'u', 'r', 'i', 'n', 'g', ' ',
   'e', 'v', 'a', 'l', 'u', 'a', 't', 'i', 'o', 'n', ':', ' ']

/-- Embedding of the `Score:` line parse of `_judge_output`
(`src/pbt/core/evaluator.py` lines 233-238): take the text between the
first `Score:` and the next one (Python `line.split...`), strip it, keep
what comes before the first `/`, and convert it with `int`; a
`ValueError` is modelled by `none`. -/
def parseScoreLine (line : Str) : Option Int :=
  parsePyInt ((pyStrip (takeUntil scoreTag (afterFirst scoreTag line))).takeWhile
    (fun c => c ≠ '/'))

/-- Result record of `_judge_output`. -/
structure JudgeResult where
  score : Int
  passed : Bool
  explanation : Str
deriving DecidableEq

/-- One step of the line loop of `_judge_output`
(`src/pbt/core/evaluator.py` lines 231-242), threading the state
`(score, passed, explanation)` through a line.  The `if/elif/elif`
structure means a line containing `Score:` never updates `passed` or
`explanation`, and a failed `int` parse leaves the score unchanged. -/
def judgeLine (st : Int × Bool × Str) (line : Str) : Int × Bool × Str :=
  if containsSub scoreTag line then
    match parseScoreLine line with
    | some n => (n, st.2.1, st.2.2)
    | none => st
  else if containsSub passedTag line then
    (st.1, containsSub trueLit (toLowerStr line), st.2.2)
  else if containsSub explTag line then
    (st.1, st.2.1, pyStrip (takeUntil explTag (afterFirst explTag line)))
  else st

/-- Embedding of `_judge_output` (`src/pbt/core/evaluator.py` lines
189-259).  The LLM call is a parameter: `resp` is the judge model's
response text, or the message of the exception the call raised.  On a
response, the lines are scanned with defaults `score = 5`,
`passed = false`, `explanation =` whole content, and afterwards the
fallback `if score >= 6: passed = True` is applied; on an exception the
result is score 0, not passed, with the wrapped error message. -/
def judge_output (resp : Except Str Str) : JudgeResult :=
  match resp with
  | .error e => { score := 0, passed := false, explanation := judgeErrTag ++ e }
  | .ok content =>
    let st := (splitNl content).foldl judgeLine (5, false, content)
    { score := st.1
      passed := if st.1 ≥ 6 then true else st.2.1
      explanation := st.2.2 }

/-- Result record of `_evaluate_jsonl_output`. -/
structure JsonlEval where
  score : ℚ
  passed : Bool
  keyword_matches : List Str
  keyword_score : ℚ
  quality_score : ℚ
deriving DecidableEq

/-- Embedding of `_evaluate_jsonl_output` (`src/pbt/core/evaluator.py`
lines 650-680).  `judgeScore` is the 0-10 `score` field of the
`_judge_output` sub-call made when `quality_criteria` is non-empty (the
sub-call is external input, so it enters as a parameter).  Python
truthiness of the keyword list and of the criteria string is emptiness. -/
def evaluate_jsonl_output (judgeScore : ℚ) (output : Str)
    (expected_keywords : List Str) (quality_criteria : Str) : JsonlEval :=
  let output_lower := toLowerStr output
  let keyword_matches :=
    expected_keywords.filter (fun kw => containsSub (toLowerStr kw) output_lower)
  let keyword_score : ℚ :=
    if expected_keywords ≠ [] then
      (keyword_matches.length : ℚ) / (expected_keywords.length : ℚ)
    else 1
  let quality_score : ℚ :=
    if quality_criteria ≠ [] then judgeScore / 10 else keyword_score
  let final_score := quality_score * (7 / 10) + keyword_score * (3 / 10)
  { score := final_score * 10
    passed := decide (final_score ≥ 6 / 10)
    keyword_matches := keyword_matches
    keyword_score := keyword_score
    quality_score := quality_score }

/-- A test case as consumed by `run_tests`; only the fields the executor
reads into its result records are kept (name, and the data the fallible
body consumes is folded into the `attempt` parameter). -/
structure TestCaseE where
  name : Str
deriving DecidableEq

/-- Outcome of the fallible per-test body of `run_tests` (rendering, the
provider call and the judge sub-call, lines 120-150): an evaluation with
a pass flag and a 0-10 score, or the raised exception's message. -/
structure EvalOut where
  passed : Bool
  score : ℚ
deriving DecidableEq

/-- One entry of the `results` list built by `run_tests`. -/
structure TestResultE where
  test_name : Str
  passed : Bool
  score : ℚ
  error : Option Str
deriving DecidableEq

/-- The `summary` dict built by `run_tests` / `run_jsonl_tests`. -/
structure Summary where
  total : ℕ
  passed : ℕ
  failed : ℕ
  pass_rate : ℚ
  average_score : ℚ
deriving DecidableEq

/-- The return value of `run_tests`. -/
structure RunReport where
  results : List TestResultE
  summary : Summary
deriving DecidableEq

/-- Embedding of the summary block shared by `run_tests` (lines 172-187)
and `run_jsonl_tests` (lines 631-645) of `src/pbt/core/evaluator.py`. -/
def mkSummary (results : List TestResultE) : Summary :=
  let total := results.length
  let passedN := results.countP (·.passed)
  { total := total
    passed := passedN
    failed := total - passedN
    pass_rate := if total > 0 then (passedN : ℚ) / (total : ℚ) else 0
    average_score :=
      if total > 0 then (results.map (·.score)).sum / (total : ℚ) else 0 }

/-- The per-test `try/except` of `run_tests` (lines 118-170): a test whose
body raises is recorded with `passed = false`, `score = 0` and the error
message; otherwise the evaluation's verdict is recorded. -/
def runTestsStep (attempt : TestCaseE → Except Str EvalOut) (t : TestCaseE) :
    TestResultE :=
  match attempt t with
  | .ok ev => { test_name := t.name, passed := ev.passed, score := ev.score, error := none }
  | .error e => { test_name := t.name, passed := false, score := 0, error := some e }

/-- Embedding of `run_tests` (`src/pbt/core/evaluator.py` lines 108-187);
`run_jsonl_tests` (lines 583-648) has the identical loop/summary shape.
The fallible per-test body is the `attempt` parameter. -/
def run_tests (attempt : TestCaseE → Except Str EvalOut)
    (tests : List TestCaseE) : RunReport :=
  let results := tests.map (runTestsStep attempt)
  { results := results, summary := mkSummary results }

/-- A `TestResult` of `src/pbt/core/prompt_evaluator.py` restricted to
the fields `_create_report` reads. -/
structure TestResultP where
  score : ℚ
  passed : Bool
deriving DecidableEq

/-- The aggregate fields of the `EvaluationReport` built by
`_create_report` (`src/pbt/core/prompt_evaluator.py` lines 362-386). -/
structure ReportAgg where
  total_tests : ℕ
  passed_tests : ℕ
  pass_rate : ℚ
  average_score : ℚ
deriving DecidableEq

/-- Embedding of the aggregation in `_create_report`
(`src/pbt/core/prompt_evaluator.py` lines 362-374). -/
def create_report (results : List TestResultP) : ReportAgg :=
  let total_tests := results.length
  let passed_tests := results.countP (·.passed)
  { total_tests := total_tests
    passed_tests := passed_tests
    pass_rate :=
      if total_tests > 0 then (passed_tests : ℚ) / (total_tests : ℚ) else 0
    average_score :=
      if total_tests > 0 then (results.map (·.score)).sum / (total_tests : ℚ) else 0 }

/-- The literal `Error:` marker `_evaluate_consistency` filters on. -/
def errTag : Str := ['E', 'r', 'r', 'o', 'r', ':']

/-- Embedding of `_evaluate_consistency` (`src/pbt/core/evaluator.py`
lines 344-364): fewer than two runs score 1.0; outputs recorded as
errors are dropped; no surviving output scores 0.0; otherwise the score
is `max(0, 1 - variance/avg^2)` over the output lengths, with the
relative variance defaulting to 1.0 when the average length is 0. -/
def evaluate_consistency (outputs : List Str) : ℚ :=
  if outputs.length < 2 then 1
  else
    let lengths :=
      (outputs.filter (fun o => ¬ errTag.isPrefixOf o)).map (fun o => (o.length : ℚ))
    if lengths = [] then 0
    else
      let avg_length := lengths.sum / (lengths.length : ℚ)
      let variance :=
        (lengths.map (fun l => (l - avg_length) ^ 2)).sum / (lengths.length : ℚ)
      let relative_variance := if avg_length > 0 then variance / avg_length ^ 2 else 1
      max 0 (1 - relative_variance)

/-- Lexicographic order on the `(pass_rate, avg_score)` sort keys, the
order under which Python compares the tuples built by the `sorted(...)`
calls of `compare_prompt_versions` and `compare_models`. -/
def keyLe (p q : ℚ × ℚ) : Prop := p.1 < q.1 ∨ (p.1 = q.1 ∧ p.2 ≤ q.2)

instance : DecidableRel keyLe := fun p q => by
  unfold keyLe
  infer_instance

/-- Relation placing `a` before `b` in a descending sort by `key`:
`a`'s key is lexicographically at least `b`'s. -/
def pyDescR (key : α → ℚ × ℚ) (a b : α) : Prop := keyLe (key b) (key a)

instance (key : α → ℚ × ℚ) : DecidableRel (pyDescR key) := fun a b => by
  unfold pyDescR
  infer_instance

/-- Embedding of Python `sorted(l, key=..., reverse=True)`: a stable sort
descending by `key`.  Insertion sort with this insertion relation places
an earlier element before any equal-keyed later element, which is exactly
Python's stability guarantee; any two stable sorts of the same list by
the same key coincide. -/
def pySortDesc (key : α → ℚ × ℚ) (l : List α) : List α :=
  l.insertionSort (pyDescR key)

/-- One entry of the per-version results of `compare_prompt_versions`
(`src/pbt/core/evaluator.py` lines 432-439), restricted to the fields
the ranking reads. -/
structure VersionResult where
  version : Str
  pass_rate : ℚ
  avg_score : ℚ
deriving DecidableEq

/-- Sort key of `compare_prompt_versions`: `(pass_rate, avg_score)`. -/
def vKey (v : VersionResult) : ℚ × ℚ := (v.pass_rate, v.avg_score)

/-- The comparison/ranking record returned by `compare_prompt_versions`. -/
structure VersionComparison where
  comparison_results : List VersionResult
  ranked_versions : List VersionResult
  best_version : Option VersionResult
deriving DecidableEq

/-- Embedding of the ranking tail of `compare_prompt_versions`
(`src/pbt/core/evaluator.py` lines 441-449): the per-version suite runs
have produced `results`; the versions are stably sorted descending by
`(pass_rate, avg_score)` and the best version is the head of the ranking
(absent when there are no candidates). -/
def compare_prompt_versions (results : List VersionResult) : VersionComparison :=
  let ranked := pySortDesc vKey results
  { comparison_results := results
    ranked_versions := ranked
    best_version := ranked.head? }

/-- One entry of the per-model results of `compare_models`
(`src/pbt/core/evaluator.py` lines 459-480): a successful suite run's
rates, or rates pinned to zero together with the raised error's text. -/
structure ModelResult where
  model : Str
  pass_rate : ℚ
  avg_score : ℚ
  error : Option Str
deriving DecidableEq

/-- Sort key of `compare_models`: `(pass_rate, avg_score)`. -/
def mKey (r : ModelResult) : ℚ × ℚ := (r.pass_rate, r.avg_score)

/-- The comparison record returned by `compare_models`. -/
structure ModelComparison where
  model_comparison : List ModelResult
  ranked_models : List ModelResult
  best_model : Option ModelResult
deriving DecidableEq

/-- The per-model `try/except` body of `compare_models` (lines 459-480):
a model whose whole suite run raises is recorded with the error message
and zero rates. -/
def compareModelsStep (runner : Str → Except Str Summary) (model : Str) :
    ModelResult :=
  match runner model with
  | .ok s =>
    { model := model, pass_rate := s.pass_rate, avg_score := s.average_score, error := none }
  | .error e => { model := model, pass_rate := 0, avg_score := 0, error := some e }

/-- Embedding of `compare_models` (`src/pbt/core/evaluator.py` lines
451-491).  `runner` is the fallible whole-suite run of one model
(`test_agent_with_file`).  Entries that recorded an error are excluded
from the ranking; the best model is the ranking's head. -/
def compare_models (runner : Str → Except Str Summary) (models : List Str) :
    ModelComparison :=
  let results := models.map (compareModelsStep runner)
  let valid_results := results.filter (fun r => r.error.isNone)
  let ranked := pySortDesc mKey valid_results
  { model_comparison := results
    ranked_models := ranked
    best_model := ranked.head? }

/-- One entry of the `test_regressions` list built by `regression_test`. -/
structure TestRegression where
  test_name : Str
  baseline_score : ℚ
  current_score : ℚ
  score_difference : ℚ
deriving DecidableEq

/-- The comparison fields returned by `regression_test`. -/
structure RegressionOut where
  regression_detected : Bool
  pass_rate_change : ℚ
  score_change : ℚ
  test_regressions : List TestRegression
deriving DecidableEq

/-- Lookup in the Python dict `{r[chr(39)test_namechr(39)]: r for r in
baseline_results}`: a comprehension keyed by name keeps the last entry
with a given name, so the lookup returns the last baseline result named
`name`, if any. -/
def lookupByName (name : Str) (l : List TestResultE) : Option TestResultE :=
  (l.filter (fun r => r.test_name = name)).getLast?

/-- Embedding of `regression_test` (`src/pbt/core/evaluator.py` lines
493-540) after both suite runs have produced their reports: regression
is flagged on the summary deltas, and `test_regressions` collects, in
current-run order, the current tests whose baseline namesake exists and
whose score dropped by strictly more than 2 points. -/
def regression_test (current baseline : RunReport) : RegressionOut :=
  let regression_detected :=
    decide (current.summary.pass_rate < baseline.summary.pass_rate - 1 / 10) ||
      decide (current.summary.average_score < baseline.summary.average_score - 1)
  let test_regressions :=
    current.results.filterMap (fun ct =>
      match lookupByName ct.test_name baseline.results with
      | some bt =>
        if ct.score - bt.score < -2 then
          some { test_name := ct.test_name
                 baseline_score := bt.score
                 current_score := ct.score
                 score_difference := ct.score - bt.score }
        else none
      | none => none)
  { regression_detected := regression_detected
    pass_rate_change := current.summary.pass_rate - baseline.summary.pass_rate
    score_change := current.summary.average_score - baseline.summary.average_score
    test_regressions := test_regressions }

/-! ### Helper lemmas about the renderer -/

/-- A needle that occurs nowhere in the haystack is not replaced. -/
lemma replaceAll_of_not_contains (needle repl : Str) :
    ∀ hay : Str, containsSub needle hay = false → replaceAll needle repl hay = hay := by
  cases needle with
  | nil =>
    intro hay h
    cases hay <;> simp [replaceAll]
  | cons n ns =>
    intro hay
    induction hay with
    | nil =>
      intro h
      simp [replaceAll]
    | cons c rest ih =>
      intro h
      simp only [containsSub, Bool.or_eq_false_iff] at h
      rw [replaceAll, if_neg (by simp [h.1]), ih h.2]

/-- Replacement consumes a needle standing at the front of the haystack
and continues behind it. -/
lemma replaceAll_append_self (n : Char) (ns repl rest : Str) :
    replaceAll (n :: ns) repl ((n :: ns) ++ rest) = repl ++ replaceAll (n :: ns) repl rest := by
  rw [List.cons_append, replaceAll, if_pos, List.drop_left' rfl]
  rw [← List.cons_append]
  exact List.isPrefixOf_iff_prefix.mpr (List.prefix_append _ _)

/-- Replacing inside the empty haystack yields the empty string. -/
lemma replaceAll_nil (n : Char) (ns repl : Str) : replaceAll (n :: ns) repl [] = [] := by
  simp [replaceAll]

/-- The tight two-brace placeholder without inner spaces, `\x7b\x7bkey\x7d\x7d`. -/
def tightPlaceholderOf (key : Str) : Str :=
  [Char.ofNat 123, Char.ofNat 123] ++ key ++ [Char.ofNat 125, Char.ofNat 125]

/-- The demonstration key `key`. -/
def demoKey : Str := ['k', 'e', 'y']

/-- C6 counterexample: rendering the template `\x7b\x7bkey\x7d\x7d` (no
spaces inside the delimiters) with the variable map `key -> v` leaves the
template unchanged instead of substituting `v`, so the renderers are not
tolerant of arbitrary whitespace inside the delimiters; a template with
two inner spaces on each side is likewise left verbatim. -/
theorem render_whitespace_counterexample :
    render_prompt (tightPlaceholderOf demoKey) [(demoKey, ['v'])] = tightPlaceholderOf demoKey ∧
      tightPlaceholderOf demoKey ≠ ['v'] ∧
      render_prompt
          ([Char.ofNat 123, Char.ofNat 123, ' ', ' '] ++ demoKey ++
            [' ', ' ', Char.ofNat 125, Char.ofNat 125]) [(demoKey, ['v'])] =
        [Char.ofNat 123, Char.ofNat 123, ' ', ' '] ++ demoKey ++
          [' ', ' ', Char.ofNat 125, Char.ofNat 125] := by
  refine ⟨?_, by decide, ?_⟩ <;>
    simp +decide [render_prompt, replaceAll, placeholderOf, tightPlaceholderOf, demoKey]

/-- C6 (amended): the renderers replace every occurrence of the exact
single-space delimited placeholder `\x7b\x7b key \x7d\x7d` of each key in
the variable map with the stringified value (`\x7b\x7bkey\x7d\x7d` and
forms with other whitespace are not recognised and are left verbatim, per
the counterexample); keys whose placeholder does not occur in the
template are silently ignored. -/
theorem render_exact_placeholder (t : Str) (vars : List (Str × Str)) (k v rest : Str)
    (h : ∀ kv ∈ vars, containsSub (placeholderOf kv.1) t = false) :
    render_prompt t vars = t ∧
      replaceAll (placeholderOf k) v (placeholderOf k ++ rest) =
        v ++ replaceAll (placeholderOf k) v rest ∧
      render_prompt (placeholderOf k) [(k, v)] = v := by
  refine ⟨?_, ?_, ?_⟩
  · induction vars with
    | nil => rfl
    | cons kv tl ih =>
      have h1 : containsSub (placeholderOf kv.1) t = false := h kv (List.mem_cons_self kv tl)
      have h2 : ∀ kv ∈ tl, containsSub (placeholderOf kv.1) t = false := by
        intro x hx
        exact h x (List.mem_cons_of_mem _ hx)
      simpa [render_prompt, replaceAll_of_not_contains _ _ _ h1] using ih h2
  · exact replaceAll_append_self _ _ _ _
  · have h1 := replaceAll_append_self (Char.ofNat 123)
      ([Char.ofNat 123, ' '] ++ k ++ [' ', Char.ofNat 125, Char.ofNat 125]) v []
    simp only [placeholderOf, render_prompt, List.foldl_cons, List.foldl_nil]
    simp [replaceAll, h1]

/-- Witness for `render_exact_placeholder`: the template `hello` contains
no placeholder of `key`, so rendering leaves it unchanged; the
single-placeholder template renders to the value. -/
theorem render_exact_placeholder_witness :
    render_prompt ['h', 'e', 'l', 'l', 'o'] [(demoKey, ['v'])] = ['h', 'e', 'l', 'l', 'o'] ∧
      render_prompt (placeholderOf demoKey) [(demoKey, ['v'])] = ['v'] :=
  ⟨(render_exact_placeholder ['h', 'e', 'l', 'l', 'o'] [(demoKey, ['v'])] demoKey ['v'] []
      (by decide)).1,
    (render_exact_placeholder ['h', 'e', 'l', 'l', 'o'] [(demoKey, ['v'])] demoKey ['v'] []
      (by decide)).2.2⟩

/-- C4: in the simple keyword/criteria scoring of `_evaluate_jsonl_output`,
the keyword score is the fraction of expected keywords found
case-insensitively in the output (exactly 1 for an empty keyword list);
with both criteria present the 0-10 score is
`0.3 * keyword_score * 10 + 0.7 * quality_score`; with no quality
criteria the score is `keyword_score * 10`; with only quality criteria
the keyword factor is pinned at its vacuous value 1, so the score is
`3 + 0.7 * quality_score`, a function of the judge score alone; the test
passes exactly when the 0-10 score is at least 6. -/
theorem evaluate_jsonl_scoring (judgeScore : ℚ) (output : Str)
    (kw : List Str) (qc : Str) :
    (kw = [] → (evaluate_jsonl_output judgeScore output kw qc).keyword_score = 1) ∧
    (kw ≠ [] → (evaluate_jsonl_output judgeScore output kw qc).keyword_score =
      ((kw.filter (fun k => containsSub (toLowerStr k) (toLowerStr output))).length : ℚ) /
        (kw.length : ℚ)) ∧
    (kw ≠ [] → qc ≠ [] → (evaluate_jsonl_output judgeScore output kw qc).score =
      3 / 10 * (evaluate_jsonl_output judgeScore output kw qc).keyword_score * 10 +
        7 / 10 * judgeScore) ∧
    (qc = [] → (evaluate_jsonl_output judgeScore output kw qc).score =
      (evaluate_jsonl_output judgeScore output kw qc).keyword_score * 10) ∧
    (kw = [] → qc ≠ [] → (evaluate_jsonl_output judgeScore output kw qc).score =
      3 + 7 / 10 * judgeScore) ∧
    ((evaluate_jsonl_output judgeScore output kw qc).passed = true ↔
      6 ≤ (evaluate_jsonl_output judgeScore output kw qc).score) := by
  have h10 : (0 : ℚ) < 10 := by norm_num
  refine ⟨?_, ?_, ?_, ?_, ?_, ?_⟩
  · intro h
    simp [evaluate_jsonl_output, h]
  · intro h
    simp [evaluate_jsonl_output, h]
  · intro h1 h2
    simp only [evaluate_jsonl_output, if_pos h1, if_pos h2]
    ring
  · intro h
    subst h
    simp only [evaluate_jsonl_output, ne_eq, not_true_eq_false, if_false]
    ring
  · intro h1 h2
    subst h1
    simp only [evaluate_jsonl_output, ne_eq, not_true_eq_false, if_false, if_pos h2]
    ring
  · simp only [evaluate_jsonl_output, decide_eq_true_eq, ge_iff_le]
    rw [div_le_iff₀ h10]

/-- Witness for `evaluate_jsonl_scoring`: a test with one matched
keyword out of two and a judge score of 8 gets
`0.3 * 0.5 * 10 + 0.7 * 8 = 7.1` and passes. -/
theorem evaluate_jsonl_scoring_witness :
    (evaluate_jsonl_output 8 ['c', 'a', 't'] [['c', 'a', 't'], ['d', 'o', 'g']]
        ['g', 'o', 'o', 'd']).score = 71 / 10 ∧
      (evaluate_jsonl_output 8 ['c', 'a', 't'] [['c', 'a', 't'], ['d', 'o', 'g']]
          ['g', 'o', 'o', 'd']).passed = true := by
  have h := evaluate_jsonl_scoring 8 (['c', 'a', 't']) ([['c', 'a', 't'], ['d', 'o', 'g']])
    (['g', 'o', 'o', 'd'])
  have hks := h.2.1 (by decide)
  have hscore := h.2.2.1 (by decide) (by decide)
  rw [hks] at hscore
  have hf : (List.filter
      (fun k => containsSub (toLowerStr k) (toLowerStr ['c', 'a', 't']))
      [['c', 'a', 't'], ['d', 'o', 'g']]).length = 1 := by decide
  rw [hf] at hscore
  norm_num at hscore
  refine ⟨hscore, ?_⟩
  rw [h.2.2.2.2.2, hscore]
  norm_num

/-- C5 counterexample: with an empty keyword list and no quality
criteria, `_evaluate_jsonl_output` scores 10.0, not the claimed default
of 8.0 (shown here on a non-empty output). -/
theorem evaluate_jsonl_default_counterexample :
    (evaluate_jsonl_output 0 ['h', 'i'] [] []).score = 10 ∧ ((10 : ℚ) ≠ 8) := by
  constructor
  · norm_num [evaluate_jsonl_output]
  · norm_num

/-- C5 (amended): with an empty `expected_keywords` list and no
`quality_criteria`, the simple scoring path assigns the maximal final
score 10.0 (both factors collapse to the vacuous keyword score 1.0) and
the test passes, regardless of the output - even an empty one. -/
theorem evaluate_jsonl_default_score (judgeScore : ℚ) (output : Str) :
    (evaluate_jsonl_output judgeScore output [] []).score = 10 ∧
      (evaluate_jsonl_output judgeScore output [] []).passed = true := by
  constructor
  · norm_num [evaluate_jsonl_output]
  · norm_num [evaluate_jsonl_output]

/-- C7: in the summaries built by `run_tests` and by `_create_report`,
the pass rate is `passed / total` for a non-empty run and 0 (not 1) for
an empty one, the average score is the mean of the per-test scores for a
non-empty run and 0 for an empty one, and the pass rate always lies in
`[0, 1]`. -/
theorem summary_pass_rate_bounds (rE : List TestResultE) (rP : List TestResultP) :
    ((mkSummary rE).total = 0 →
      (mkSummary rE).pass_rate = 0 ∧ (mkSummary rE).average_score = 0) ∧
    (0 < (mkSummary rE).total →
      (mkSummary rE).pass_rate = ((mkSummary rE).passed : ℚ) / ((mkSummary rE).total : ℚ) ∧
      (mkSummary rE).average_score = (rE.map (·.score)).sum / (rE.length : ℚ)) ∧
    (0 ≤ (mkSummary rE).pass_rate ∧ (mkSummary rE).pass_rate ≤ 1) ∧
    ((create_report rP).total_tests = 0 →
      (create_report rP).pass_rate = 0 ∧ (create_report rP).average_score = 0) ∧
    (0 < (create_report rP).total_tests →
      (create_report rP).pass_rate =
        ((create_report rP).passed_tests : ℚ) / ((create_report rP).total_tests : ℚ) ∧
      (create_report rP).average_score = (rP.map (·.score)).sum / (rP.length : ℚ)) ∧
    (0 ≤ (create_report rP).pass_rate ∧ (create_report rP).pass_rate ≤ 1) := by
  have boundsE : 0 ≤ (mkSummary rE).pass_rate ∧ (mkSummary rE).pass_rate ≤ 1 := by
    simp only [mkSummary]
    split_ifs with h
    · refine ⟨by positivity, ?_⟩
      rw [div_le_one (by exact_mod_cast h)]
      exact_mod_cast List.countP_le_length _
    · norm_num
  have boundsP : 0 ≤ (create_report rP).pass_rate ∧ (create_report rP).pass_rate ≤ 1 := by
    simp only [create_report]
    split_ifs with h
    · refine ⟨by positivity, ?_⟩
      rw [div_le_one (by exact_mod_cast h)]
      exact_mod_cast List.countP_le_length _
    · norm_num
  refine ⟨?_, ?_, boundsE, ?_, ?_, boundsP⟩
  · intro h
    simp only [mkSummary] at h ⊢
    simp [List.eq_nil_of_length_eq_zero h]
  · intro h
    simp only [mkSummary] at h ⊢
    simp [if_pos h]
  · intro h
    simp only [create_report] at h ⊢
    simp [List.eq_nil_of_length_eq_zero h]
  · intro h
    simp only [create_report] at h ⊢
    simp [if_pos h]

/-- Witness for `summary_pass_rate_bounds`: one passing test of score 8
and one failing test of score 0 give pass rate 1/2 and average 4, and an
empty run gives rates 0. -/
theorem summary_pass_rate_bounds_witness :
    (mkSummary [{ test_name := ['a'], passed := true, score := 8, error := none },
        { test_name := ['b'], passed := false, score := 0, error := none }]).pass_rate =
      1 / 2 ∧
      (mkSummary ([] : List TestResultE)).pass_rate = 0 ∧
      (create_report ([] : List TestResultP)).average_score = 0 := by
  have h := summary_pass_rate_bounds
    [{ test_name := ['a'], passed := true, score := 8, error := none },
      { test_name := ['b'], passed := false, score := 0, error := none }]
    ([] : List TestResultP)
  have h0 := summary_pass_rate_bounds ([] : List TestResultE) ([] : List TestResultP)
  refine ⟨?_, ?_, ?_⟩
  · have := (h.2.1 (by simp [mkSummary])).1
    rw [this]
    norm_num [mkSummary]
  · exact (h0.1 (by simp [mkSummary])).1
  · exact (h.2.2.2.1 (by simp [create_report])).2

/-- C8 counterexample: two runs whose outputs both have length 1 (all
lengths identical) get consistency score 1.0, not the claimed maximal
10.0 - `_evaluate_consistency` reports on a 0-1 scale, with no factor
of 10 anywhere. -/
theorem evaluate_consistency_counterexample :
    evaluate_consistency [['a'], ['a']] = 1 ∧ ((1 : ℚ) ≠ 10) := by
  constructor
  · simp +decide [evaluate_consistency, errTag]
  · norm_num

/-- Sum of a constant list of rationals. -/
lemma sum_of_all_eq {l : List ℚ} {c : ℚ} (h : ∀ x ∈ l, x = c) :
    l.sum = (l.length : ℚ) * c := by
  induction l with
  | nil => simp
  | cons a tl ih =>
    have ha := h a (List.mem_cons_self a tl)
    have htl := ih (fun x hx => h x (List.mem_cons_of_mem _ hx))
    simp only [List.sum_cons, List.length_cons, ha, htl]
    push_cast
    ring

/-- C8 (amended): `_evaluate_consistency` scores on a 0-1 scale, not
0-10: fewer than two runs score exactly 1; when all non-error outputs
share the same positive length the relative variance is 0 and the score
is exactly 1; the general formula is `max(0, 1 - variance/mean^2)`, with
the relative variance pinned to 1 (hence score 0) when the mean length
is 0, i.e. when all surviving outputs are empty. -/
theorem evaluate_consistency_of_equal_lengths (outputs : List Str) (L : ℕ)
    (hlen : 2 ≤ outputs.length)
    (hsome : outputs.filter (fun o => ¬ errTag.isPrefixOf o) ≠ [])
    (heq : ∀ o ∈ outputs.filter (fun o => ¬ errTag.isPrefixOf o), o.length = L) :
    (0 < L → evaluate_consistency outputs = 1) ∧
      (L = 0 → evaluate_consistency outputs = 0) ∧
      (∀ few : List Str, few.length < 2 → evaluate_consistency few = 1) := by
  have hnotlt : ¬ outputs.length < 2 := by omega
  set fl := outputs.filter (fun o => ¬ errTag.isPrefixOf o) with hfl
  have hlens : ∀ x ∈ fl.map (fun o => (o.length : ℚ)), x = (L : ℚ) := by
    intro x hx
    obtain ⟨o, ho, rfl⟩ := List.mem_map.mp hx
    exact_mod_cast congrArg (Nat.cast : ℕ → ℚ) (heq o ho)
  have hne : fl.map (fun o => (o.length : ℚ)) ≠ [] := by
    simpa using hsome
  have hlenpos : (0 : ℚ) < ((fl.map (fun o => (o.length : ℚ))).length : ℚ) := by
    have := List.length_pos.mpr hne
    exact_mod_cast this
  have hsum := sum_of_all_eq hlens
  have havg : (fl.map (fun o => (o.length : ℚ))).sum /
      ((fl.map (fun o => (o.length : ℚ))).length : ℚ) = (L : ℚ) := by
    rw [hsum, mul_comm, mul_div_assoc, div_self (ne_of_gt hlenpos), mul_one]
  have hvar : ((fl.map (fun o => (o.length : ℚ))).map
      (fun l => (l - (L : ℚ)) ^ 2)).sum = 0 := by
    have : ∀ x ∈ (fl.map (fun o => (o.length : ℚ))).map (fun l => (l - (L : ℚ)) ^ 2),
        x = 0 := by
      intro x hx
      obtain ⟨y, hy, rfl⟩ := List.mem_map.mp hx
      rw [hlens y hy]
      ring
    rw [sum_of_all_eq this, mul_zero]
  refine ⟨?_, ?_, ?_⟩
  · intro hL
    have hLpos : (0 : ℚ) < (L : ℚ) := by exact_mod_cast hL
    simp only [evaluate_consistency, if_neg hnotlt, ← hfl, if_neg hne, havg, hvar, zero_div,
      if_pos hLpos, sub_zero]
    simp
  · intro hL
    subst hL
    simp only [evaluate_consistency, if_neg hnotlt, ← hfl, if_neg hne, havg, hvar, zero_div,
      Nat.cast_zero]
    norm_num
  · intro few hfew
    rw [evaluate_consistency, if_pos hfew]

/-- Witness for `evaluate_consistency_of_equal_lengths`: two length-1
outputs score 1, two empty outputs score 0, and a single run scores 1. -/
theorem evaluate_consistency_of_equal_lengths_witness :
    evaluate_consistency [['a'], ['b']] = 1 ∧
      evaluate_consistency [[], []] = 0 ∧
      evaluate_consistency [['a']] = 1 := by
  have h1 := evaluate_consistency_of_equal_lengths [['a'], ['b']] 1
    (by decide) (by decide) (by decide)
  have h0 := evaluate_consistency_of_equal_lengths [[], []] 0
    (by decide) (by decide) (by decide)
  exact ⟨h1.1 (by decide), h0.2.1 rfl, h1.2.2 [['a']] (by decide)⟩

/-- C3: `run_tests` isolates per-test failures: the results list has one
entry per test in order, each entry is a function of its own test alone
(so siblings are unaffected by another test's failure), a test whose body
raises is recorded with `passed = false` and `score = 0` and the error
message, a test whose body succeeds records its evaluation verbatim, and
the summary's `total` still counts every test. -/
theorem run_tests_isolation (attempt : TestCaseE → Except Str EvalOut)
    (tests : List TestCaseE) :
    (run_tests attempt tests).summary.total = tests.length ∧
    (run_tests attempt tests).results.length = tests.length ∧
    (∀ i : ℕ, (run_tests attempt tests).results[i]? =
      (tests[i]?).map (runTestsStep attempt)) ∧
    (∀ t e, attempt t = .error e → runTestsStep attempt t =
      { test_name := t.name, passed := false, score := 0, error := some e }) ∧
    (∀ t ev, attempt t = .ok ev → runTestsStep attempt t =
      { test_name := t.name, passed := ev.passed, score := ev.score, error := none }) := by
  refine ⟨?_, ?_, ?_, ?_, ?_⟩
  · simp [run_tests, mkSummary]
  · simp [run_tests]
  · intro i
    simp [run_tests, List.getElem?_map]
  · intro t e h
    simp [runTestsStep, h]
  · intro t ev h
    simp [runTestsStep, h]

/-- A demonstration per-test body that raises `boom` on the test named
`t2` and evaluates every other test as passing with score 8. -/
def demoAttempt : TestCaseE → Except Str EvalOut := fun t =>
  if t.name = ['t', '2'] then .error ['b', 'o', 'o', 'm']
  else .ok { passed := true, score := 8 }

/-- A demonstration suite of three tests. -/
def demoTests : List TestCaseE := [⟨['t', '1']⟩, ⟨['t', '2']⟩, ⟨['t', '3']⟩]

/-- Witness for `run_tests_isolation`: with the middle of three tests
raising, the summary still counts 3 tests, the failing test is recorded
with `passed = false`, `score = 0` and the message, and its siblings
keep their successful evaluations. -/
theorem run_tests_isolation_witness :
    (run_tests demoAttempt demoTests).summary.total = 3 ∧
      runTestsStep demoAttempt ⟨['t', '2']⟩ =
        { test_name := ['t', '2'], passed := false, score := 0,
          error := some ['b', 'o', 'o', 'm'] } ∧
      runTestsStep demoAttempt ⟨['t', '1']⟩ =
        { test_name := ['t', '1'], passed := true, score := 8, error := none } := by
  have h := run_tests_isolation demoAttempt demoTests
  refine ⟨h.1, ?_, ?_⟩
  · exact h.2.2.2.1 ⟨['t', '2']⟩ ['b', 'o', 'o', 'm'] (by simp +decide [demoAttempt])
  · exact h.2.2.2.2 ⟨['t', '1']⟩ { passed := true, score := 8 }
      (by simp +decide [demoAttempt])

/-! ### The descending stable sort shared by the two comparison engines -/

lemma keyLe_refl (p : ℚ × ℚ) : keyLe p p := Or.inr ⟨rfl, le_refl _⟩

lemma keyLe_total (p q : ℚ × ℚ) : keyLe p q ∨ keyLe q p := by
  rcases lt_trichotomy p.1 q.1 with h | h | h
  · exact Or.inl (Or.inl h)
  · rcases le_total p.2 q.2 with h2 | h2
    · exact Or.inl (Or.inr ⟨h, h2⟩)
    · exact Or.inr (Or.inr ⟨h.symm, h2⟩)
  · exact Or.inr (Or.inl h)

lemma keyLe_trans {p q s : ℚ × ℚ} (h1 : keyLe p q) (h2 : keyLe q s) : keyLe p s := by
  rcases h1 with h1 | ⟨h1, h1'⟩ <;> rcases h2 with h2 | ⟨h2, h2'⟩
  · exact Or.inl (h1.trans h2)
  · exact Or.inl (h2 ▸ h1)
  · exact Or.inl (h1 ▸ h2)
  · exact Or.inr ⟨h1.trans h2, h1'.trans h2'⟩

lemma ne_of_not_keyLe {p q : ℚ × ℚ} (h : ¬ keyLe p q) : p ≠ q := by
  intro hpq
  exact h (hpq ▸ keyLe_refl p)

/-- Inserting an element into a list places it before every element with
an equal key, so among equal keys the inserted (earlier-processed)
element comes first. -/
lemma filter_orderedInsert_of_eq (key : α → ℚ × ℚ) (x : α) :
    ∀ l : List α, (List.orderedInsert (pyDescR key) x l).filter (fun y => key y = key x) =
      x :: l.filter (fun y => key y = key x) := by
  intro l
  induction l with
  | nil => simp [List.orderedInsert]
  | cons b tl ih =>
    rw [List.orderedInsert]
    by_cases h : pyDescR key x b
    · rw [if_pos h]
      simp
    · rw [if_neg h]
      have hne : key b ≠ key x := ne_of_not_keyLe (fun hk => h hk)
      rw [List.filter_cons_of_neg (by simpa using hne), List.filter_cons_of_neg
        (by simpa using hne)]
      exact ih

/-- Inserting an element does not disturb the subsequence of elements
with any other key. -/
lemma filter_orderedInsert_of_ne (key : α → ℚ × ℚ) (x : α) (k : ℚ × ℚ)
    (hk : key x ≠ k) :
    ∀ l : List α, (List.orderedInsert (pyDescR key) x l).filter (fun y => key y = k) =
      l.filter (fun y => key y = k) := by
  intro l
  induction l with
  | nil => simp [List.orderedInsert, hk]
  | cons b tl ih =>
    rw [List.orderedInsert]
    by_cases h : pyDescR key x b
    · rw [if_pos h]
      rw [List.filter_cons_of_neg (by simpa using hk)]
    · rw [if_neg h]
      by_cases hb : key b = k
      · rw [List.filter_cons_of_pos (by simpa using hb), List.filter_cons_of_pos
          (by simpa using hb), ih]
      · rw [List.filter_cons_of_neg (by simpa using hb), List.filter_cons_of_neg
          (by simpa using hb), ih]

/-- Stability of the embedded Python sort: for every key value, the
subsequence of candidates carrying that key is preserved verbatim, so
candidates tying on both sort keys keep their first-encountered order. -/
lemma filter_pySortDesc (key : α → ℚ × ℚ) (l : List α) (k : ℚ × ℚ) :
    (pySortDesc key l).filter (fun y => key y = k) = l.filter (fun y => key y = k) := by
  induction l with
  | nil => rfl
  | cons x xs ih =>
    show (List.orderedInsert (pyDescR key) x (pySortDesc key xs)).filter _ = _
    by_cases hx : key x = k
    · subst hx
      rw [filter_orderedInsert_of_eq, ih, List.filter_cons_of_pos (by simp)]
    · rw [filter_orderedInsert_of_ne key x k hx, ih, List.filter_cons_of_neg (by simpa using hx)]

/-- The embedded Python sort is a permutation of its input. -/
lemma perm_pySortDesc (key : α → ℚ × ℚ) (l : List α) : (pySortDesc key l).Perm l :=
  List.perm_insertionSort _ l

/-- The embedded Python sort is sorted: each element's key is
lexicographically at least every later element's key. -/
lemma sorted_pySortDesc (key : α → ℚ × ℚ) (l : List α) :
    List.Sorted (pyDescR key) (pySortDesc key l) := by
  letI : IsTotal α (pyDescR key) :=
    ⟨fun a b => (keyLe_total (key a) (key b)).symm⟩
  letI : IsTrans α (pyDescR key) :=
    ⟨fun a b c hab hbc => keyLe_trans hbc hab⟩
  exact List.sorted_insertionSort _ l

/-- C2: the ranking returned by `compare_prompt_versions` is a
permutation of the candidates sorted descending by
`(pass_rate, avg_score)` under the lexicographic key order; candidates
tying on both keys keep their first-encountered relative order (the
key-fibre subsequences are preserved verbatim); the best version is the
head of the ranking, hence absent exactly for an empty candidate list;
and the ranking is a deterministic function of the candidate
summaries. -/
theorem compare_versions_ranking (results : List VersionResult) :
    ((compare_prompt_versions results).ranked_versions).Perm results ∧
    List.Sorted (pyDescR vKey) ((compare_prompt_versions results).ranked_versions) ∧
    (∀ k, ((compare_prompt_versions results).ranked_versions).filter
        (fun c => vKey c = k) = results.filter (fun c => vKey c = k)) ∧
    (compare_prompt_versions results).best_version =
      ((compare_prompt_versions results).ranked_versions).head? ∧
    (results = [] → (compare_prompt_versions results).best_version = none) ∧
    (∀ other : List VersionResult, other = results →
      compare_prompt_versions other = compare_prompt_versions results) := by
  refine ⟨perm_pySortDesc vKey results, sorted_pySortDesc vKey results,
    fun k => filter_pySortDesc vKey results k, rfl, ?_, ?_⟩
  · intro h
    subst h
    rfl
  · intro other h
    rw [h]

/-- Two demonstration candidate versions tying on both sort keys. -/
def demoV1 : VersionResult := { version := ['v', '1'], pass_rate := 1 / 2, avg_score := 7 }

/-- Second demonstration candidate, same keys as `demoV1`. -/
def demoV2 : VersionResult := { version := ['v', '2'], pass_rate := 1 / 2, avg_score := 7 }

/-- Witness for `compare_versions_ranking`: on two candidates tying on
both keys the filter-stability clause forces the ranking to keep the
first-encountered order, and an empty candidate list yields no best
version. -/
theorem compare_versions_ranking_witness :
    (compare_prompt_versions [demoV1, demoV2]).ranked_versions = [demoV1, demoV2] ∧
      (compare_prompt_versions ([] : List VersionResult)).best_version = none := by
  have h := compare_versions_ranking [demoV1, demoV2]
  have hstab := h.2.2.1 (1 / 2, 7)
  have hfull : ((compare_prompt_versions [demoV1, demoV2]).ranked_versions).length = 2 := by
    simpa using h.1.length_eq
  constructor
  · have h1 : (List.filter (fun c => decide (vKey c = (1 / 2, 7)))
        [demoV1, demoV2]) = [demoV1, demoV2] := by
      simp +decide [demoV1, demoV2, vKey]
    rw [h1] at hstab
    have hsub : (List.filter (fun c => decide (vKey c = (1 / 2, 7)))
        ((compare_prompt_versions [demoV1, demoV2]).ranked_versions)).Sublist
          ((compare_prompt_versions [demoV1, demoV2]).ranked_versions) :=
      List.filter_sublist _
    rw [hstab] at hsub
    exact (hsub.eq_of_length (by simp [hfull])).symm
  · exact (compare_versions_ranking ([] : List VersionResult)).2.2.2.2.1 rfl

/-- C9: `compare_models` records exactly one entry per requested model
even when a model's whole suite run raises; a failed model is recorded
with zero pass rate and zero average score together with the error
message; entries carrying an error never enter `ranked_models`; the best
model is therefore never a failed model, and is absent when every model
fails. -/
theorem compare_models_isolation (runner : Str → Except Str Summary)
    (models : List Str) :
    ((compare_models runner models).model_comparison).length = models.length ∧
    (∀ m e, m ∈ models → runner m = .error e →
      { model := m, pass_rate := 0, avg_score := 0, error := some e } ∈
        (compare_models runner models).model_comparison) ∧
    (∀ r ∈ (compare_models runner models).ranked_models, r.error = none) ∧
    (∀ b, (compare_models runner models).best_model = some b → b.error = none) ∧
    ((∀ m ∈ models, ∃ e, runner m = .error e) →
      (compare_models runner models).best_model = none) := by
  have hranked : ∀ r ∈ (compare_models runner models).ranked_models, r.error = none := by
    intro r hr
    have hmem : r ∈ (models.map (compareModelsStep runner)).filter
        (fun r => r.error.isNone) := by
      exact ((perm_pySortDesc mKey _).mem_iff).mp hr
    have := (List.mem_filter.mp hmem).2
    simpa [Option.isNone_iff_eq_none] using this
  refine ⟨by simp [compare_models], ?_, hranked, ?_, ?_⟩
  · intro m e hm hrun
    have : compareModelsStep runner m =
        { model := m, pass_rate := 0, avg_score := 0, error := some e } := by
      simp [compareModelsStep, hrun]
    exact this ▸ List.mem_map_of_mem (compareModelsStep runner) hm
  · intro b hb
    exact hranked b (List.mem_of_mem_head? hb)
  · intro hall
    have hfilter : (models.map (compareModelsStep runner)).filter
        (fun r => r.error.isNone) = [] := by
      rw [List.filter_eq_nil_iff]
      intro r hr
      obtain ⟨m, hm, rfl⟩ := List.mem_map.mp hr
      obtain ⟨e, he⟩ := hall m hm
      simp [compareModelsStep, he]
    show (pySortDesc mKey _).head? = none
    rw [hfilter]
    rfl

/-- A demonstration suite runner whose every run raises. -/
def demoFailRunner : Str → Except Str Summary := fun _ => .error ['d', 'o', 'w', 'n']

/-- Witness for `compare_models_isolation`: with both requested models
failing, both are still recorded (with zeroed rates and the message) and
no best model is reported. -/
theorem compare_models_isolation_witness :
    ((compare_models demoFailRunner [['m', '1'], ['m', '2']]).model_comparison).length = 2 ∧
      { model := ['m', '1'], pass_rate := 0, avg_score := 0, error := some ['d', 'o', 'w', 'n'] } ∈
        (compare_models demoFailRunner [['m', '1'], ['m', '2']]).model_comparison ∧
      (compare_models demoFailRunner [['m', '1'], ['m', '2']]).best_model = none := by
  have h := compare_models_isolation demoFailRunner [['m', '1'], ['m', '2']]
  refine ⟨h.1, ?_, ?_⟩
  · exact h.2.1 ['m', '1'] ['d', 'o', 'w', 'n'] (by decide) rfl
  · exact h.2.2.2.2 (fun m _ => ⟨['d', 'o', 'w', 'n'], rfl⟩)

/-- With pairwise-distinct test names, filtering a result list by one
member's name keeps exactly that member. -/
lemma filter_name_eq_singleton :
    ∀ {l : List TestResultE}, (l.map (·.test_name)).Nodup →
      ∀ {bt : TestResultE}, bt ∈ l →
        l.filter (fun r => r.test_name = bt.test_name) = [bt] := by
  intro l
  induction l with
  | nil =>
    intro _ bt hbt
    cases hbt
  | cons a tl ih =>
    intro hnd bt hbt
    rw [List.map_cons, List.nodup_cons] at hnd
    rcases List.mem_cons.mp hbt with rfl | hmem
    · rw [List.filter_cons_of_pos (by simp)]
      congr 1
      rw [List.filter_eq_nil_iff]
      intro r hr heq
      exact hnd.1 (by
        rw [← show r.test_name = bt.test_name from by simpa using heq]
        exact List.mem_map_of_mem _ hr)
    · have hne : a.test_name ≠ bt.test_name := by
        intro he
        exact hnd.1 (he ▸ List.mem_map_of_mem (·.test_name) hmem)
      rw [List.filter_cons_of_neg (by simpa using hne)]
      exact ih hnd.2 hmem

/-- With pairwise-distinct baseline test names, the dict lookup finds
each baseline result under its own name. -/
lemma lookupByName_eq_some {l : List TestResultE}
    (hnd : (l.map (·.test_name)).Nodup) {bt : TestResultE} (hbt : bt ∈ l) :
    lookupByName bt.test_name l = some bt := by
  rw [lookupByName, filter_name_eq_singleton hnd hbt]
  rfl

/-- What a successful dict lookup guarantees: the found result is in the
list and carries the looked-up name. -/
lemma lookupByName_mem {l : List TestResultE} {name : Str} {bt : TestResultE}
    (h : lookupByName name l = some bt) : bt ∈ l ∧ bt.test_name = name := by
  have hmem := List.mem_of_mem_getLast? h
  have := List.mem_filter.mp hmem
  exact ⟨this.1, by simpa using this.2⟩

/-- C1: `regression_test` flags a regression exactly when the current
pass rate is below baseline minus 0.1 or the current average score is
below baseline minus 1.0 (strict inequalities); and, when baseline test
names are pairwise distinct, `test_regressions` contains exactly the
records of current tests with a baseline namesake whose score dropped by
strictly more than 2.0 points - tests present on only one side never
appear. -/
theorem regression_detection (current baseline : RunReport)
    (hnd : (baseline.results.map (·.test_name)).Nodup) :
    ((regression_test current baseline).regression_detected = true ↔
      (current.summary.pass_rate < baseline.summary.pass_rate - 1 / 10 ∨
        current.summary.average_score < baseline.summary.average_score - 1)) ∧
    (∀ tr, tr ∈ (regression_test current baseline).test_regressions ↔
      ∃ ct ∈ current.results, ∃ bt ∈ baseline.results,
        ct.test_name = tr.test_name ∧ bt.test_name = tr.test_name ∧
        tr.current_score = ct.score ∧ tr.baseline_score = bt.score ∧
        tr.score_difference = ct.score - bt.score ∧ ct.score < bt.score - 2) ∧
    (∀ tr ∈ (regression_test current baseline).test_regressions,
      (∃ ct ∈ current.results, ct.test_name = tr.test_name) ∧
        ∃ bt ∈ baseline.results, bt.test_name = tr.test_name) := by
  have hmem : ∀ tr, tr ∈ (regression_test current baseline).test_regressions ↔
      ∃ ct ∈ current.results, ∃ bt ∈ baseline.results,
        ct.test_name = tr.test_name ∧ bt.test_name = tr.test_name ∧
        tr.current_score = ct.score ∧ tr.baseline_score = bt.score ∧
        tr.score_difference = ct.score - bt.score ∧ ct.score < bt.score - 2 := by
    intro tr
    show tr ∈ List.filterMap _ current.results ↔ _
    rw [List.mem_filterMap]
    constructor
    · rintro ⟨ct, hct, hf⟩
      refine ⟨ct, hct, ?_⟩
      rcases hlook : lookupByName ct.test_name baseline.results with _ | bt
      · simp only [hlook] at hf
        cases hf
      · simp only [hlook] at hf
        by_cases hlt : ct.score - bt.score < -2
        · rw [if_pos hlt] at hf
          obtain ⟨hbl, hbname⟩ := lookupByName_mem hlook
          obtain rfl := Option.some.inj hf
          exact ⟨bt, hbl, rfl, hbname, rfl, rfl, rfl, by linarith⟩
        · rw [if_neg hlt] at hf
          cases hf
    · rintro ⟨ct, hct, bt, hbt, hcn, hbn, hcs, hbs, hd, hlt⟩
      refine ⟨ct, hct, ?_⟩
      have hlook : lookupByName ct.test_name baseline.results = some bt := by
        rw [show ct.test_name = bt.test_name from hcn.trans hbn.symm]
        exact lookupByName_eq_some hnd hbt
      simp only [hlook]
      rw [if_pos (show ct.score - bt.score < -2 by linarith)]
      congr 1
      cases tr
      simp only at hcn hcs hbs hd
      simp [← hcn, hcs, hbs, hd]
  refine ⟨?_, hmem, ?_⟩
  · show (decide _ || decide _) = true ↔ _
    simp
  · intro tr htr
    obtain ⟨ct, hct, bt, hbt, hcn, hbn, -⟩ := (hmem tr).mp htr
    exact ⟨⟨ct, hct, hcn⟩, ⟨bt, hbt, hbn⟩⟩

/-- A demonstration current run: the single test `a` scored 5. -/
def demoCurReport : RunReport :=
  { results := [{ test_name := ['a'], passed := true, score := 5, error := none }],
    summary := mkSummary [{ test_name := ['a'], passed := true, score := 5, error := none }] }

/-- A demonstration baseline run: the single test `a` scored 8. -/
def demoBaseReport : RunReport :=
  { results := [{ test_name := ['a'], passed := true, score := 8, error := none }],
    summary := mkSummary [{ test_name := ['a'], passed := true, score := 8, error := none }] }

/-- Witness for `regression_detection`: a test dropping from 8 to 5
(a 3-point drop) appears in `test_regressions`. -/
theorem regression_detection_witness :
    ({ test_name := ['a'], baseline_score := 8, current_score := 5,
        score_difference := -3 } : TestRegression) ∈
      (regression_test demoCurReport demoBaseReport).test_regressions := by
  have h := regression_detection demoCurReport demoBaseReport (by decide)
  exact (h.2.1 _).mpr
    ⟨{ test_name := ['a'], passed := true, score := 5, error := none },
      by simp [demoCurReport],
      { test_name := ['a'], passed := true, score := 8, error := none },
      by simp [demoBaseReport], rfl, rfl, rfl, rfl, by norm_num, by norm_num⟩

/-- If no line's `Score:` marker yields a parseable integer, the line
loop never changes the running score. -/
lemma judgeFold_score : ∀ (lines : List Str) (st : Int × Bool × Str),
    (∀ line ∈ lines, containsSub scoreTag line = true → parseScoreLine line = none) →
    (lines.foldl judgeLine st).1 = st.1 := by
  intro lines
  induction lines with
  | nil =>
    intro st _
    rfl
  | cons line tl ih =>
    intro st h
    rw [List.foldl_cons]
    have hstep : (judgeLine st line).1 = st.1 := by
      by_cases hs : containsSub scoreTag line
      · rw [judgeLine, if_pos hs, h line (List.mem_cons_self line tl) hs]
      · rw [judgeLine, if_neg (by simp [hs])]
        split_ifs <;> rfl
    rw [ih (judgeLine st line) (fun l hl => h l (List.mem_cons_of_mem _ hl)), hstep]

/-- The only way the line loop turns the passed flag on is a line that
contains `Passed:` (and no `Score:`, by the `elif`) whose lowercase form
contains `true`. -/
lemma judgeFold_passed : ∀ (lines : List Str) (st : Int × Bool × Str),
    (lines.foldl judgeLine st).2.1 = true →
    st.2.1 = true ∨ ∃ line ∈ lines, containsSub scoreTag line = false ∧
      containsSub passedTag line = true ∧
      containsSub trueLit (toLowerStr line) = true := by
  intro lines
  induction lines with
  | nil =>
    intro st h
    exact Or.inl h
  | cons line tl ih =>
    intro st h
    rw [List.foldl_cons] at h
    rcases ih (judgeLine st line) h with hstep | ⟨l, hl, hprops⟩
    · by_cases hs : containsSub scoreTag line
      · rw [judgeLine, if_pos hs] at hstep
        rcases hparse : parseScoreLine line with _ | n <;> rw [hparse] at hstep
        · exact Or.inl hstep
        · exact Or.inl hstep
      · by_cases hp : containsSub passedTag line
        · rw [judgeLine, if_neg (by simp [hs]), if_pos hp] at hstep
          exact Or.inr ⟨line, List.mem_cons_self line tl,
            by simpa using hs, hp, hstep⟩
        · rw [judgeLine, if_neg (by simp [hs]), if_neg (by simp [hp])] at hstep
          split_ifs at hstep <;> exact Or.inl hstep
    · exact Or.inr ⟨l, List.mem_cons_of_mem _ hl, hprops⟩

/-- C10: in `_judge_output`, the final fallback makes the result pass
whenever the parsed score is at least 6, whatever any `Passed:` line
said; when no `Score:` line yields a parseable integer the score stays
at its default 5 and the result can pass only on account of a line that
contains `Passed:` (and no `Score:`) with `true` in its lowercase form;
and a raised judge-call exception yields score 0, not passed, with the
wrapped error message as explanation. -/
theorem judge_output_parsing :
    (∀ content, 6 ≤ (judge_output (.ok content)).score →
      (judge_output (.ok content)).passed = true) ∧
    (∀ content,
      (∀ line ∈ splitNl content, containsSub scoreTag line = true →
        parseScoreLine line = none) →
      (judge_output (.ok content)).score = 5 ∧
      ((judge_output (.ok content)).passed = true →
        ∃ line ∈ splitNl content, containsSub scoreTag line = false ∧
          containsSub passedTag line = true ∧
          containsSub trueLit (toLowerStr line) = true)) ∧
    (∀ e, judge_output (.error e) =
      { score := 0, passed := false, explanation := judgeErrTag ++ e }) := by
  refine ⟨?_, ?_, fun e => rfl⟩
  · intro content h
    simp only [judge_output] at h ⊢
    rw [if_pos (show ((splitNl content).foldl judgeLine (5, false, content)).1 ≥ 6 from h)]
  · intro content h
    have hscore : ((splitNl content).foldl judgeLine (5, false, content)).1 = 5 :=
      judgeFold_score (splitNl content) (5, false, content) h
    constructor
    · simpa only [judge_output] using hscore
    · intro hp
      simp only [judge_output] at hp
      rw [if_neg (by rw [hscore]; decide)] at hp
      rcases judgeFold_passed (splitNl content) (5, false, content) hp with hfalse | hex
      · cases hfalse
      · exact hex

/-- A demonstration judge response carrying a parseable score line. -/
def demoJudgeContent : Str :=
  ['S', 'c', 'o', 'r', 'e', ':', ' ', '8', '/', '1', '0']

/-- Witness for `judge_output_parsing`: a `Score: 8/10` response passes
by the score fallback; a response with no score line keeps the default
score 5; an exception maps to the zero-score failure record. -/
theorem judge_output_parsing_witness :
    (judge_output (.ok demoJudgeContent)).passed = true ∧
      (judge_output (.ok ['h', 'i'])).score = 5 ∧
      judge_output (.error ['x']) =
        { score := 0, passed := false, explanation := judgeErrTag ++ ['x'] } := by
  have h := judge_output_parsing
  exact ⟨h.1 demoJudgeContent (by decide), (h.2.1 ['h', 'i'] (by decide)).1, h.2.2 ['x']⟩

end PBT
